import Mathlib

/-!
Verification of the action-history engine of the redux-undo-actions
repository.  The definitions below are shallow embeddings of the
TypeScript source: `src/handler.ts` (undo, redo, reset, trackAfter,
handle, setTracking, replay, getInitialState), `src/utils.ts`
(canUndo, canRedo, isActionUndoable, isActionTracked, deepEqual) and
the `hydrate` transition of the reducer file.  The history entry flag
is named `undone` in the source types (the utility file of an adjacent
revision spells the same field `skipped`); we use `undone`.
JavaScript array primitives used by the source (findLastIndex,
findIndex, toSpliced with negative-index clamping, out-of-range
indexing) are modelled explicitly with JS semantics.
-/

set_option autoImplicit false

namespace ReduxUndoActions

/-- A JavaScript value tree, as far as the structural equality
`deepEqual` of `src/utils.ts` observes it: primitives (undefined,
null, booleans, numbers - with NaN as a distinguished number - and
strings) and plain objects.  Objects carry a reference identifier
`ref` so that the reference-equality fast path of the JS `===`
operator is representable; two occurrences of the same JS object share
their `ref`, distinct allocations have distinct `ref`s. -/
inductive JSVal where
  | vundef : JSVal
  | vnull : JSVal
  | vbool (b : Bool) : JSVal
  | vnan : JSVal
  | vnum (n : Int) : JSVal
  | vstr (s : String) : JSVal
  | vobj (ref : Nat) (fields : List (String × JSVal)) : JSVal

/-- The JavaScript strict-equality operator `===` on modelled values:
value equality on primitives except that NaN is not equal to anything
(including itself), and reference equality on objects. -/
def jsStrictEq : JSVal → JSVal → Bool
  | JSVal.vundef, JSVal.vundef => true
  | JSVal.vnull, JSVal.vnull => true
  | JSVal.vbool a, JSVal.vbool b => a == b
  | JSVal.vnum a, JSVal.vnum b => a == b
  | JSVal.vstr a, JSVal.vstr b => a == b
  | JSVal.vobj i _, JSVal.vobj j _ => i == j
  | _, _ => false

/-- Property access `o[key]` on a plain object: the first field with
the given key, or undefined when the key is absent. -/
def lookupJS (fields : List (String × JSVal)) (k : String) : JSVal :=
  match fields.find? (fun kv => kv.1 == k) with
  | some kv => kv.2
  | none => JSVal.vundef

mutual

/-- The structural equality of `src/utils.ts` lines 82 to 116: the
`a === b` fast path first; then, when both sides are (truthy) objects
of the same prototype, equal key counts, every key of `a` present in
`b`, and recursive equality of the corresponding values; anything else
is unequal.  Modelled objects are plain objects, so the prototype
comparison of the source is always satisfied between two objects. -/
def deepEqual (a b : JSVal) : Bool :=
  if jsStrictEq a b then true
  else
    match a, b with
    | JSVal.vobj _ fa, JSVal.vobj _ fb =>
        fa.length == fb.length && deepEqualFields fb fa
    | _, _ => false

/-- The key loop of `deepEqual`: iterates the fields of `a`, requiring
each key to occur among the keys of `b` and the two values at that key
to be deeply equal. -/
def deepEqualFields (fb : List (String × JSVal)) : List (String × JSVal) → Bool
  | [] => true
  | kv :: rest =>
      ((fb.map Prod.fst).contains kv.1 && deepEqual kv.2 (lookupJS fb kv.1))
        && deepEqualFields fb rest

end

/-- An entry of the history stack (`HistoryAction` of `src/types.ts`):
the recorded domain action together with the flag telling whether the
entry is currently excluded from replay.  The specification calls this
flag `skipped`; the source types call it `undone`. -/
structure HistoryAction (Action : Type) where
  action : Action
  undone : Bool
deriving DecidableEq

instance instInhabHA {Action : Type} [Inhabited Action] :
    Inhabited (HistoryAction Action) :=
  ⟨⟨default, false⟩⟩

/-- The internal history record (`History` of `src/types.ts`). -/
structure History (State Action : Type) where
  tracking : Bool
  actions : List (HistoryAction Action)
  snapshot : State
deriving DecidableEq

/-- The wrapped state shape (`HistoryState` of `src/types.ts`). -/
structure HistoryState (State Action : Type) where
  present : State
  history : History State Action
  canUndo : Bool
  canRedo : Bool
deriving DecidableEq

/-- The per-instance configuration consulted by the predicates: the
tracked and undoable action-type filters and the optional
tracking-start action type.  (The source spells the two lists
`trackedActions`/`undoableActions` in one revision and
`trackedActionTypes`/`undoableActionTypes` in the revision of the
utility file; the semantics is identical.) -/
structure UndoableActionsConfig where
  trackedActionTypes : List String
  undoableActionTypes : List String
  trackAfterAction : Option String
deriving DecidableEq

/-- The hydrate payload carrying the exported actions list and the
tracking flag, both fields optional in the source. -/
structure HydratePayload (Action : Type) where
  actions : Option (List (HistoryAction Action))
  tracking : Option Bool

/-- JavaScript `Array.prototype.findLastIndex`: the largest index whose
element satisfies the predicate, and -1 when there is none. -/
def findLastIndexJS {β : Type} (p : β → Bool) : List β → Int
  | [] => -1
  | x :: xs =>
      let r := findLastIndexJS p xs
      if 0 ≤ r then r + 1
      else if p x then 0 else -1

/-- JavaScript `Array.prototype.findIndex`: the smallest index whose
element satisfies the predicate, and -1 when there is none. -/
def findIndexJS {β : Type} (p : β → Bool) : List β → Int
  | [] => -1
  | x :: xs =>
      if p x then 0
      else
        let r := findIndexJS p xs
        if 0 ≤ r then r + 1 else -1

/-- JavaScript `xs.toSpliced(start, 1, item)`: the start index is
clamped (negative values count from the end), one element is removed
at the clamped position when it exists, and the item is inserted
there. -/
def toSpliced1 {β : Type} (xs : List β) (start : Int) (item : β) : List β :=
  let s : Nat :=
    if start < 0 then (max ((xs.length : Int) + start) 0).toNat
    else min start.toNat xs.length
  xs.take s ++ item :: xs.drop (s + 1)

/-- JavaScript indexing `xs[i]` with an Int index as used by the
source right after a find: element at `i` when in range, and the junk
value `undefined` (modelled by the Inhabited default) otherwise. -/
def jsGetEntry {β : Type} [Inhabited β] (xs : List β) (i : Int) : β :=
  if i < 0 then default else xs.getD i.toNat default

section Engine

variable {State Action : Type}

/-- Predicate `isActionUndoable` of `src/utils.ts`: true when the
undoable filter is empty or contains the type of the action.  The
function `atype` extracts the `type` tag of a domain action. -/
def isActionUndoable (config : UndoableActionsConfig)
    (atype : Action → String) (action : Action) : Bool :=
  config.undoableActionTypes.isEmpty
    || config.undoableActionTypes.contains (atype action)

/-- Predicate `isActionTracked` of `src/utils.ts`: true when the
tracked filter is empty or contains the type of the action. -/
def isActionTracked (config : UndoableActionsConfig)
    (atype : Action → String) (action : Action) : Bool :=
  config.trackedActionTypes.isEmpty
    || config.trackedActionTypes.contains (atype action)

/-- Predicate `canUndo` of `src/utils.ts`: restricted to the entries
not yet undone, the list must be nonempty and (when the undoable
filter is nonempty) contain an entry of an undoable type. -/
def canUndo (config : UndoableActionsConfig) (atype : Action → String)
    (actions : List (HistoryAction Action)) : Bool :=
  let live := actions.filter (fun a => !a.undone)
  if live.length == 0 then false
  else
    config.undoableActionTypes.isEmpty
      || live.any (fun a => config.undoableActionTypes.contains (atype a.action))

/-- Predicate `canRedo` of `src/utils.ts`: some entry is undone.  The
configuration argument is unused in the source as well. -/
def canRedo (_config : UndoableActionsConfig)
    (actions : List (HistoryAction Action)) : Bool :=
  actions.any (fun a => a.undone)

/-- The `replay` fold of `src/handler.ts` lines 224 to 232: left fold
of the base reducer over the not-undone entries, in stored order,
starting from the given baseline state. -/
def replay (reducer : State → Action → State)
    (newActions : List (HistoryAction Action)) (initialState : State) : State :=
  (newActions.filter (fun a => !a.undone)).foldl
    (fun accState a => reducer accState a.action) initialState

/-- The `undo` transition of `src/handler.ts` lines 56 to 88. -/
def undo [Inhabited Action] (reducer : State → Action → State)
    (config : UndoableActionsConfig) (atype : Action → String)
    (state : HistoryState State Action) : HistoryState State Action :=
  let history := state.history
  let actions := history.actions
  if !(canUndo config atype actions) then state
  else
    let lastUndoableIndex := findLastIndexJS
      (fun a => !a.undone && isActionUndoable config atype a.action) actions
    let newActions := toSpliced1 actions lastUndoableIndex
      { jsGetEntry actions lastUndoableIndex with undone := true }
    let present := replay reducer newActions history.snapshot
    { history := { history with actions := newActions }
      present := present
      canUndo := canUndo config atype newActions
      canRedo := canRedo config newActions }

/-- The `redo` transition of `src/handler.ts` lines 90 to 126,
including the single-step shortcut taken when the entry being redone
is the last element of the list. -/
def redo [Inhabited Action] (reducer : State → Action → State)
    (config : UndoableActionsConfig) (atype : Action → String)
    (state : HistoryState State Action) : HistoryState State Action :=
  let present := state.present
  let history := state.history
  let actions := history.actions
  if !(canRedo config actions) then state
  else
    let firstUndoableIndex := findIndexJS
      (fun a => a.undone && isActionUndoable config atype a.action) actions
    let newActions := toSpliced1 actions firstUndoableIndex
      { jsGetEntry actions firstUndoableIndex with undone := false }
    let newPresent :=
      if firstUndoableIndex == (actions.length : Int) - 1 then
        reducer present (jsGetEntry newActions firstUndoableIndex).action
      else
        replay reducer newActions history.snapshot
    { history := { history with actions := newActions }
      present := newPresent
      canUndo := canUndo config atype newActions
      canRedo := canRedo config newActions }

/-- The default `handle` transition of `src/handler.ts` lines 168 to
206.  The structural-equality test on the two present values is the
imported `deepEqual`; the engine is generic in the wrapped state, so
that test is passed in as `deq`. -/
def handle (reducer : State → Action → State)
    (config : UndoableActionsConfig) (atype : Action → String)
    (deq : State → State → Bool) (state : HistoryState State Action)
    (action : Action) : HistoryState State Action :=
  let present := state.present
  let history := state.history
  let actions := history.actions
  let tracking := history.tracking
  let newPresent := reducer present action
  if !tracking || !isActionTracked config atype action
      || deq newPresent present then
    { state with present := newPresent }
  else
    let appended := actions ++ [{ action := action, undone := false }]
    let newActions :=
      if isActionUndoable config atype action then
        appended.filter (fun a => !a.undone)
      else appended
    { history := { history with actions := newActions }
      present := newPresent
      canUndo := canUndo config atype newActions
      canRedo := canRedo config newActions }

/-- The initial state built by `getInitialState` of `src/handler.ts`;
`initialPresent` stands for the result of the inaugural base-reducer
call on the undefined state. -/
def getInitialState (config : UndoableActionsConfig)
    (initialPresent : State) : HistoryState State Action :=
  { present := initialPresent
    history := { tracking := config.trackAfterAction.isNone
                 actions := []
                 snapshot := initialPresent }
    canUndo := false
    canRedo := false }

/-- The `reset` transition of `src/handler.ts` lines 128 to 146. -/
def reset (config : UndoableActionsConfig)
    (state initialState : HistoryState State Action) :
    HistoryState State Action :=
  if config.trackAfterAction.isNone then initialState
  else
    { initialState with
      history := { initialState.history with
                   tracking := state.history.tracking
                   snapshot := state.history.snapshot }
      present := state.history.snapshot }

/-- The `trackAfter` transition of `src/handler.ts` lines 148 to
166. -/
def trackAfter (reducer : State → Action → State)
    (config : UndoableActionsConfig) (atype : Action → String)
    (deq : State → State → Bool) (state : HistoryState State Action)
    (action : Action) (initialState : HistoryState State Action) :
    HistoryState State Action :=
  let newState := handle reducer config atype deq state action
  { initialState with
    history := { initialState.history with
                 tracking := true
                 snapshot := newState.present }
    present := newState.present }

/-- The `setTracking` transition of `src/handler.ts` lines 208 to 222;
the boolean is the payload of the tracking action, which the source
casts from the untyped payload field. -/
def setTracking (state : HistoryState State Action) (tracking : Bool) :
    HistoryState State Action :=
  { state with history := { state.history with tracking := tracking } }

/-- The `hydrate` transition of the reducer source (unnamed part 002,
lines 221 to 248): both payload fields are defaulted when absent, the
new snapshot is the present value from before hydration, the new
present is the replay of the payload entries over that snapshot, and
the derived flags are recomputed from the payload entries. -/
def hydrate (reducer : State → Action → State)
    (config : UndoableActionsConfig) (atype : Action → String)
    (state : HistoryState State Action) (payload : HydratePayload Action)
    (initialState : HistoryState State Action) : HistoryState State Action :=
  let actions := payload.actions.getD []
  let tracking := payload.tracking.getD true
  let newPresent := replay reducer actions state.present
  { initialState with
    history := { initialState.history with
                 tracking := tracking
                 actions := actions
                 snapshot := state.present }
    present := newPresent
    canUndo := canUndo config atype actions
    canRedo := canRedo config actions }

/-- The replay invariant of the specification: the present value is
the left fold of the base reducer over the snapshot along the
not-undone entries in stored order. -/
def Coherent (reducer : State → Action → State)
    (s : HistoryState State Action) : Prop :=
  s.present = replay reducer s.history.actions s.history.snapshot

end Engine

/-- Concrete base reducer on integer counters used to instantiate the
generic engine on concrete inputs: `inc` adds one, `dec` subtracts
one, every other action type leaves the state unchanged. -/
def cReducer : Int → String → Int := fun s a =>
  if a = "inc" then s + 1 else if a = "dec" then s - 1 else s

/-- Structural equality on the concrete integer state. -/
def deqInt : Int → Int → Bool := fun a b => a == b

/-- Concrete actions are plain type tags, so the type of an action is
the action itself. -/
def idType : String → String := fun a => a

/-- Configuration with empty filters: everything tracked, everything
undoable. -/
def cfgAll : UndoableActionsConfig := ⟨[], [], none⟩

/-- Configuration tracking only the `inc` action type. -/
def cfgTrackedInc : UndoableActionsConfig := ⟨["inc"], [], none⟩

/-- Configuration where only the action type `B` is undoable. -/
def cfgUndoB : UndoableActionsConfig := ⟨[], ["B"], none⟩

/-- A concrete history state holding one undone entry of the
non-undoable type `A` (reachable by hydrating such a payload under
`cfgUndoB`). -/
def stUndoneA : HistoryState Int String :=
  ⟨0, ⟨true, [⟨"A", true⟩], 0⟩, false, true⟩

/-- A concrete coherent history state whose single entry is undone:
reached from the initial state by handling `inc` and undoing it. -/
def stExhausted : HistoryState Int String :=
  undo cReducer cfgAll idType
    (handle cReducer cfgAll idType deqInt (getInitialState cfgAll 0) "inc")

/-- A concrete history state with two recorded `inc` entries. -/
def stTwoInc : HistoryState Int String :=
  ⟨2, ⟨true, [⟨"inc", false⟩, ⟨"inc", false⟩], 0⟩, true, false⟩

/-- A concrete state whose present value diverged from the replay of
its history (as happens when an untracked action changes the state),
with one undone `inc` entry. -/
def stIncoherent : HistoryState Int String :=
  ⟨99, ⟨true, [⟨"inc", true⟩], 0⟩, false, true⟩

/-- A concrete coherent history state with a live first entry and an
undone second entry, both of type inc. -/
def stC5 : HistoryState Int String :=
  ⟨1, ⟨true, [⟨"inc", false⟩, ⟨"inc", true⟩], 0⟩, true, true⟩

/-- A concrete history state on JavaScript values, for instantiating
the engine with the actual deepEqual of the source. -/
def stJS : HistoryState JSVal String :=
  ⟨JSVal.vnum 5, ⟨true, [], JSVal.vnum 5⟩, false, false⟩

end ReduxUndoActions

namespace ReduxUndoActions

section Lemmas

variable {State Action : Type}
variable {β : Type}

lemma findLastIndexJS_ge_neg_one (p : β → Bool) (xs : List β) :
    -1 ≤ findLastIndexJS p xs := by
  induction xs with
  | nil => simp [findLastIndexJS]
  | cons x xs ih =>
    simp only [findLastIndexJS]
    split
    · omega
    · split <;> omega

lemma findLastIndexJS_eq_neg_one_iff (p : β → Bool) (xs : List β) :
    findLastIndexJS p xs = -1 ↔ ∀ x ∈ xs, p x = false := by
  induction xs with
  | nil => simp [findLastIndexJS]
  | cons x xs ih =>
    simp only [findLastIndexJS]
    by_cases h0 : (0 : Int) ≤ findLastIndexJS p xs
    · rw [if_pos h0]
      constructor
      · intro h; omega
      · intro h
        exfalso
        have : findLastIndexJS p xs = -1 := by
          have := h0
          rcases ih.mpr (fun y hy => h y (List.mem_cons_of_mem x hy)) with h1
          exact h1
        omega
    · have hm1 : findLastIndexJS p xs = -1 := by
        have := findLastIndexJS_ge_neg_one p xs
        omega
      rw [if_neg h0]
      by_cases hx : p x
      · simp [hx]
      · simp only [hx, if_false]
        constructor
        · intro _ y hy
          rcases List.mem_cons.mp hy with rfl | hy2
          · exact Bool.eq_false_iff.mpr hx
          · exact (ih.mp hm1) y hy2
        · intro _; rfl

lemma findLastIndexJS_found (p : β → Bool) (xs : List β)
    (h : findLastIndexJS p xs ≠ -1) :
    ∃ n : Nat, findLastIndexJS p xs = (n : Int) ∧
      ∃ e, xs[n]? = some e ∧ p e = true ∧
        ∀ k, n < k → ∀ e2, xs[k]? = some e2 → p e2 = false := by
  induction xs with
  | nil => simp [findLastIndexJS] at h
  | cons x xs ih =>
    simp only [findLastIndexJS] at h ⊢
    by_cases h0 : (0 : Int) ≤ findLastIndexJS p xs
    · rw [if_pos h0] at h ⊢
      have hne : findLastIndexJS p xs ≠ -1 := by omega
      obtain ⟨n, hn, e, he, hpe, hafter⟩ := ih hne
      refine ⟨n + 1, by omega, e, by simpa using he, hpe, ?_⟩
      intro k hk e2 he2
      cases k with
      | zero => omega
      | succ j =>
        have : n < j := by omega
        exact hafter j this e2 (by simpa using he2)
    · have hm1 : findLastIndexJS p xs = -1 := by
        have := findLastIndexJS_ge_neg_one p xs
        omega
      rw [if_neg h0] at h ⊢
      by_cases hx : p x
      · rw [if_pos hx] at h ⊢
        refine ⟨0, rfl, x, by simp, hx, ?_⟩
        intro k hk e2 he2
        cases k with
        | zero => omega
        | succ j =>
          have hmem : e2 ∈ xs := by
            have := List.getElem?_eq_some_iff.mp (by simpa using he2)
            obtain ⟨hlt, hget⟩ := this
            exact hget ▸ List.getElem_mem hlt
          exact (findLastIndexJS_eq_neg_one_iff p xs).mp hm1 e2 hmem
      · rw [if_neg hx] at h
        exact absurd rfl h

lemma findIndexJS_ge_neg_one (p : β → Bool) (xs : List β) :
    -1 ≤ findIndexJS p xs := by
  induction xs with
  | nil => simp [findIndexJS]
  | cons x xs ih =>
    simp only [findIndexJS]
    split
    · omega
    · split <;> omega

lemma findIndexJS_eq_neg_one_iff (p : β → Bool) (xs : List β) :
    findIndexJS p xs = -1 ↔ ∀ x ∈ xs, p x = false := by
  induction xs with
  | nil => simp [findIndexJS]
  | cons x xs ih =>
    simp only [findIndexJS]
    by_cases hx : p x
    · simp [hx]
    · rw [if_neg hx]
      by_cases h0 : (0 : Int) ≤ findIndexJS p xs
      · rw [if_pos h0]
        constructor
        · intro h; omega
        · intro h
          have : findIndexJS p xs = -1 :=
            ih.mpr (fun y hy => h y (List.mem_cons_of_mem x hy))
          omega
      · have hm1 : findIndexJS p xs = -1 := by
          have := findIndexJS_ge_neg_one p xs
          omega
        rw [if_neg h0]
        constructor
        · intro _ y hy
          rcases List.mem_cons.mp hy with rfl | hy2
          · exact Bool.eq_false_iff.mpr hx
          · exact (ih.mp hm1) y hy2
        · intro _; rfl

lemma findIndexJS_found (p : β → Bool) (xs : List β)
    (h : findIndexJS p xs ≠ -1) :
    ∃ n : Nat, findIndexJS p xs = (n : Int) ∧
      ∃ e, xs[n]? = some e ∧ p e = true ∧
        ∀ k, k < n → ∀ e2, xs[k]? = some e2 → p e2 = false := by
  induction xs with
  | nil => simp [findIndexJS] at h
  | cons x xs ih =>
    simp only [findIndexJS] at h ⊢
    by_cases hx : p x
    · rw [if_pos hx] at h ⊢
      exact ⟨0, rfl, x, by simp, hx, by omega⟩
    · rw [if_neg hx] at h ⊢
      by_cases h0 : (0 : Int) ≤ findIndexJS p xs
      · rw [if_pos h0] at h ⊢
        have hne : findIndexJS p xs ≠ -1 := by omega
        obtain ⟨n, hn, e, he, hpe, hbefore⟩ := ih hne
        refine ⟨n + 1, by omega, e, by simpa using he, hpe, ?_⟩
        intro k hk e2 he2
        cases k with
        | zero =>
          simp only [List.getElem?_cons_zero, Option.some.injEq] at he2
          subst he2
          exact Bool.eq_false_iff.mpr hx
        | succ j =>
          exact hbefore j (by omega) e2 (by simpa using he2)
      · rw [if_neg h0] at h
        exact absurd rfl h

lemma findIndexJS_eq_of_first (p : β → Bool) (xs : List β) (n : Nat)
    (e : β) (hn : xs[n]? = some e) (hp : p e = true)
    (hbefore : ∀ k, k < n → ∀ e2, xs[k]? = some e2 → p e2 = false) :
    findIndexJS p xs = (n : Int) := by
  have hmem : e ∈ xs := by
    obtain ⟨hlt, hget⟩ := List.getElem?_eq_some_iff.mp hn
    exact hget ▸ List.getElem_mem hlt
  have hne : findIndexJS p xs ≠ -1 := by
    intro hcon
    have := (findIndexJS_eq_neg_one_iff p xs).mp hcon e hmem
    rw [hp] at this
    simp at this
  obtain ⟨m, hm, e2, he2, hpe2, hbefore2⟩ := findIndexJS_found p xs hne
  rcases Nat.lt_trichotomy m n with hlt | heq | hgt
  · have := hbefore m hlt e2 he2
    rw [hpe2] at this
    exact absurd this (by simp)
  · rw [hm, heq]
  · have := hbefore2 n hgt e hn
    rw [hp] at this
    exact absurd this (by simp)

lemma toSpliced1_eq_set {β : Type} (xs : List β) (i : Int) (item : β)
    (h0 : 0 ≤ i) (h : i.toNat < xs.length) :
    toSpliced1 xs i item = xs.set i.toNat item := by
  unfold toSpliced1
  rw [if_neg (by omega)]
  rw [min_eq_left (Nat.le_of_lt h)]
  rw [List.set_eq_take_append_cons_drop, if_pos h]

lemma jsGetEntry_eq {β : Type} [Inhabited β] (xs : List β) (i : Int) (e : β)
    (h0 : 0 ≤ i) (hn : xs[i.toNat]? = some e) : jsGetEntry xs i = e := by
  unfold jsGetEntry
  rw [if_neg (by omega), List.getD_eq_getElem?_getD, hn]
  rfl

lemma mem_of_getElem_some {β : Type} {xs : List β} {n : Nat} {e : β}
    (hn : xs[n]? = some e) : e ∈ xs := by
  obtain ⟨hlt, hget⟩ := List.getElem?_eq_some_iff.mp hn
  exact hget ▸ List.getElem_mem hlt

lemma eq_take_cons_drop {β : Type} {xs : List β} {n : Nat} {e : β}
    (hn : xs[n]? = some e) :
    xs = xs.take n ++ e :: xs.drop (n + 1) := by
  obtain ⟨hlt, hget⟩ := List.getElem?_eq_some_iff.mp hn
  conv_lhs => rw [← List.take_append_drop n xs]
  rw [List.drop_eq_getElem_cons hlt, hget]

lemma set_eq_take_cons_drop {β : Type} {xs : List β} {n : Nat} (b : β)
    (h : n < xs.length) :
    xs.set n b = xs.take n ++ b :: xs.drop (n + 1) := by
  rw [List.set_eq_take_append_cons_drop, if_pos h]

lemma set_getElem_self {β : Type} {xs : List β} {n : Nat} {e : β}
    (hn : xs[n]? = some e) : xs.set n e = xs := by
  obtain ⟨hlt, _⟩ := List.getElem?_eq_some_iff.mp hn
  rw [set_eq_take_cons_drop e hlt, ← eq_take_cons_drop hn]

end Lemmas

section ReplayLemmas

variable {State Action : Type}

lemma replay_append (reducer : State → Action → State)
    (xs ys : List (HistoryAction Action)) (s : State) :
    replay reducer (xs ++ ys) s = replay reducer ys (replay reducer xs s) := by
  simp [replay, List.filter_append, List.foldl_append]

lemma replay_nil (reducer : State → Action → State) (s : State) :
    replay reducer [] s = s := rfl

lemma replay_single (reducer : State → Action → State)
    (e : HistoryAction Action) (s : State) :
    replay reducer [e] s = if e.undone then s else reducer s e.action := by
  by_cases h : e.undone <;> simp [replay, List.filter, h]

lemma replay_filter_not_undone (reducer : State → Action → State)
    (xs : List (HistoryAction Action)) (s : State) :
    replay reducer (xs.filter (fun a => !a.undone)) s = replay reducer xs s := by
  simp [replay, List.filter_filter]

lemma canUndo_exists {config : UndoableActionsConfig} {atype : Action → String}
    {actions : List (HistoryAction Action)}
    (h : canUndo config atype actions = true) :
    ∃ e ∈ actions, (!e.undone && isActionUndoable config atype e.action) = true := by
  simp only [canUndo] at h
  by_cases hl : (actions.filter (fun a => !a.undone)).length == 0
  · rw [if_pos hl] at h
    simp at h
  · rw [if_neg hl] at h
    have hne : actions.filter (fun a => !a.undone) ≠ [] := by
      intro hcon
      rw [hcon] at hl
      simp at hl
    rcases Bool.or_eq_true _ _ |>.mp h with hemp | hany
    · obtain ⟨x, hx⟩ := List.exists_mem_of_ne_nil _ hne
      obtain ⟨hxmem, hxundone⟩ := List.mem_filter.mp hx
      refine ⟨x, hxmem, ?_⟩
      simp [hxundone, isActionUndoable, hemp]
    · obtain ⟨x, hx, hxc⟩ := List.any_eq_true.mp hany
      obtain ⟨hxmem, hxundone⟩ := List.mem_filter.mp hx
      refine ⟨x, hxmem, ?_⟩
      simp only [isActionUndoable, hxundone, Bool.true_and]
      exact Bool.or_eq_true _ _ |>.mpr (Or.inr hxc)

lemma canRedo_of_undone {config : UndoableActionsConfig}
    {actions : List (HistoryAction Action)} {e : HistoryAction Action}
    (he : e ∈ actions) (hu : e.undone = true) :
    canRedo config actions = true := by
  simp only [canRedo, List.any_eq_true]
  exact ⟨e, he, hu⟩

lemma canRedo_exists {config : UndoableActionsConfig}
    {actions : List (HistoryAction Action)}
    (h : canRedo config actions = true) :
    ∃ e ∈ actions, e.undone = true := by
  simpa [canRedo, List.any_eq_true] using h

end ReplayLemmas

section OpLemmas

variable {State Action : Type}

lemma undo_of_not_canUndo [Inhabited Action] (reducer : State → Action → State)
    (config : UndoableActionsConfig) (atype : Action → String)
    (s : HistoryState State Action)
    (h : canUndo config atype s.history.actions = false) :
    undo reducer config atype s = s := by
  simp [undo, h]

lemma redo_of_not_canRedo [Inhabited Action] (reducer : State → Action → State)
    (config : UndoableActionsConfig) (atype : Action → String)
    (s : HistoryState State Action)
    (h : canRedo config s.history.actions = false) :
    redo reducer config atype s = s := by
  simp [redo, h]

lemma undo_spec [Inhabited Action] (reducer : State → Action → State)
    (config : UndoableActionsConfig) (atype : Action → String)
    (s : HistoryState State Action)
    (h : canUndo config atype s.history.actions = true) :
    ∃ (n : Nat) (e : HistoryAction Action),
      findLastIndexJS (fun a => !a.undone && isActionUndoable config atype a.action)
          s.history.actions = (n : Int) ∧
      s.history.actions[n]? = some e ∧
      e.undone = false ∧
      isActionUndoable config atype e.action = true ∧
      (∀ k, n < k → ∀ e2, s.history.actions[k]? = some e2 →
        (!e2.undone && isActionUndoable config atype e2.action) = false) ∧
      undo reducer config atype s =
        { present := replay reducer (s.history.actions.set n ⟨e.action, true⟩)
                       s.history.snapshot
          history := { tracking := s.history.tracking
                       actions := s.history.actions.set n ⟨e.action, true⟩
                       snapshot := s.history.snapshot }
          canUndo := canUndo config atype (s.history.actions.set n ⟨e.action, true⟩)
          canRedo := canRedo config (s.history.actions.set n ⟨e.action, true⟩) } := by
  obtain ⟨e0, he0, hp0⟩ := canUndo_exists h
  have hne : findLastIndexJS
      (fun a => !a.undone && isActionUndoable config atype a.action)
      s.history.actions ≠ -1 := by
    intro hcon
    have := (findLastIndexJS_eq_neg_one_iff _ _).mp hcon e0 he0
    rw [hp0] at this
    simp at this
  obtain ⟨n, hn, e, he, hpe, hafter⟩ := findLastIndexJS_found _ _ hne
  have hlt : n < s.history.actions.length := (List.getElem?_eq_some_iff.mp he).1
  have hu : e.undone = false := by
    have := ((Bool.and_eq_true _ _).mp hpe).1
    simpa using this
  have hua : isActionUndoable config atype e.action = true :=
    ((Bool.and_eq_true _ _).mp hpe).2
  have htn : ((n : Int)).toNat = n := Int.toNat_natCast n
  refine ⟨n, e, hn, he, hu, hua, hafter, ?_⟩
  simp only [undo, h, Bool.not_true, Bool.false_eq_true, if_false]
  rw [hn]
  rw [jsGetEntry_eq _ _ e (by omega) (by rwa [htn])]
  rw [toSpliced1_eq_set _ _ _ (by omega) (by rwa [htn])]
  rw [htn]

lemma redo_eq_of_found [Inhabited Action] (reducer : State → Action → State)
    (config : UndoableActionsConfig) (atype : Action → String)
    (s : HistoryState State Action) {n : Nat} {e : HistoryAction Action}
    (hcr : canRedo config s.history.actions = true)
    (hfij : findIndexJS (fun a => a.undone && isActionUndoable config atype a.action)
        s.history.actions = (n : Int))
    (he : s.history.actions[n]? = some e) :
    redo reducer config atype s =
      { present := if n + 1 = s.history.actions.length
                     then reducer s.present e.action
                     else replay reducer
                       (s.history.actions.set n ⟨e.action, false⟩) s.history.snapshot
        history := { tracking := s.history.tracking
                     actions := s.history.actions.set n ⟨e.action, false⟩
                     snapshot := s.history.snapshot }
        canUndo := canUndo config atype (s.history.actions.set n ⟨e.action, false⟩)
        canRedo := canRedo config (s.history.actions.set n ⟨e.action, false⟩) } := by
  have hlt : n < s.history.actions.length := (List.getElem?_eq_some_iff.mp he).1
  have htn : ((n : Int)).toNat = n := Int.toNat_natCast n
  simp only [redo, hcr, Bool.not_true, Bool.false_eq_true, if_false]
  rw [hfij]
  rw [jsGetEntry_eq s.history.actions ((n : Int)) e (by omega) (by rwa [htn])]
  rw [toSpliced1_eq_set s.history.actions ((n : Int))
    (⟨e.action, false⟩ : HistoryAction Action) (by omega) (by rwa [htn])]
  rw [htn]
  have hset : (s.history.actions.set n ⟨e.action, false⟩)[n]? =
      some (⟨e.action, false⟩ : HistoryAction Action) :=
    List.getElem?_set_self hlt
  rw [jsGetEntry_eq (s.history.actions.set n ⟨e.action, false⟩) ((n : Int))
    (⟨e.action, false⟩ : HistoryAction Action) (by omega) (by rwa [htn])]
  by_cases hc : n + 1 = s.history.actions.length
  · have hbeq : ((n : Int) == (s.history.actions.length : Int) - 1) = true := by
      simp only [beq_iff_eq]
      omega
    rw [hbeq, if_pos rfl, if_pos hc]
  · have hbeq : ((n : Int) == (s.history.actions.length : Int) - 1) = false := by
      simp only [beq_eq_false_iff_ne, ne_eq]
      omega
    rw [hbeq, if_neg (by simp), if_neg hc]

lemma redo_eq_of_not_found [Inhabited Action] (reducer : State → Action → State)
    (config : UndoableActionsConfig) (atype : Action → String)
    (s : HistoryState State Action)
    (hcr : canRedo config s.history.actions = true)
    (hfij : findIndexJS (fun a => a.undone && isActionUndoable config atype a.action)
        s.history.actions = -1) :
    redo reducer config atype s =
      { present := replay reducer
          (toSpliced1 s.history.actions (-1)
            ⟨(default : HistoryAction Action).action, false⟩) s.history.snapshot
        history := { tracking := s.history.tracking
                     actions := toSpliced1 s.history.actions (-1)
                       ⟨(default : HistoryAction Action).action, false⟩
                     snapshot := s.history.snapshot }
        canUndo := canUndo config atype (toSpliced1 s.history.actions (-1)
                       ⟨(default : HistoryAction Action).action, false⟩)
        canRedo := canRedo config (toSpliced1 s.history.actions (-1)
                       ⟨(default : HistoryAction Action).action, false⟩) } := by
  obtain ⟨e0, he0, _⟩ := canRedo_exists hcr
  have hlen : 1 ≤ s.history.actions.length := List.length_pos.mpr (by
    intro hcon
    rw [hcon] at he0
    simp at he0)
  simp only [redo, hcr, Bool.not_true, Bool.false_eq_true, if_false]
  rw [hfij]
  have hget : jsGetEntry s.history.actions (-1) = (default : HistoryAction Action) := by
    simp [jsGetEntry]
  rw [hget]
  have hbeq : ((-1 : Int) == (s.history.actions.length : Int) - 1) = false := by
    simp only [beq_eq_false_iff_ne, ne_eq]
    omega
  rw [hbeq, if_neg (by simp)]

lemma handle_eq_untracked (reducer : State → Action → State)
    (config : UndoableActionsConfig) (atype : Action → String)
    (deq : State → State → Bool) (s : HistoryState State Action) (action : Action)
    (h : (!s.history.tracking || !isActionTracked config atype action
          || deq (reducer s.present action) s.present) = true) :
    handle reducer config atype deq s action =
      { s with present := reducer s.present action } := by
  simp only [handle, h, if_true]

lemma handle_eq_tracked_undoable (reducer : State → Action → State)
    (config : UndoableActionsConfig) (atype : Action → String)
    (deq : State → State → Bool) (s : HistoryState State Action) (action : Action)
    (ht : s.history.tracking = true)
    (htr : isActionTracked config atype action = true)
    (hne : deq (reducer s.present action) s.present = false)
    (hua : isActionUndoable config atype action = true) :
    handle reducer config atype deq s action =
      { present := reducer s.present action
        history := { tracking := s.history.tracking
                     actions := s.history.actions.filter (fun a => !a.undone)
                       ++ [⟨action, false⟩]
                     snapshot := s.history.snapshot }
        canUndo := canUndo config atype (s.history.actions.filter (fun a => !a.undone)
                       ++ [⟨action, false⟩])
        canRedo := canRedo config (s.history.actions.filter (fun a => !a.undone)
                       ++ [⟨action, false⟩]) } := by
  have hguard : (!s.history.tracking || !isActionTracked config atype action
      || deq (reducer s.present action) s.present) = false := by
    rw [ht, htr, hne]
    rfl
  have hfilt : (s.history.actions ++ [(⟨action, false⟩ : HistoryAction Action)]).filter
        (fun a => !a.undone)
      = s.history.actions.filter (fun a => !a.undone)
        ++ [(⟨action, false⟩ : HistoryAction Action)] := by
    rw [List.filter_append]
    rfl
  simp only [handle, hguard, Bool.false_eq_true, if_false, hua, if_true, hfilt]

lemma handle_eq_tracked_not_undoable (reducer : State → Action → State)
    (config : UndoableActionsConfig) (atype : Action → String)
    (deq : State → State → Bool) (s : HistoryState State Action) (action : Action)
    (ht : s.history.tracking = true)
    (htr : isActionTracked config atype action = true)
    (hne : deq (reducer s.present action) s.present = false)
    (hua : isActionUndoable config atype action = false) :
    handle reducer config atype deq s action =
      { present := reducer s.present action
        history := { tracking := s.history.tracking
                     actions := s.history.actions ++ [⟨action, false⟩]
                     snapshot := s.history.snapshot }
        canUndo := canUndo config atype (s.history.actions ++ [⟨action, false⟩])
        canRedo := canRedo config (s.history.actions ++ [⟨action, false⟩]) } := by
  have hguard : (!s.history.tracking || !isActionTracked config atype action
      || deq (reducer s.present action) s.present) = false := by
    rw [ht, htr, hne]
    rfl
  simp only [handle, hguard, Bool.false_eq_true, if_false, hua, Bool.false_eq_true]

end OpLemmas

section Claims1

variable {State Action : Type}

lemma canRedo_append_live (config : UndoableActionsConfig)
    (xs : List (HistoryAction Action)) (a : Action) :
    canRedo config (xs ++ [⟨a, false⟩]) = canRedo config xs := by
  simp [canRedo, List.any_append]

lemma canRedo_filter_live (config : UndoableActionsConfig)
    (xs : List (HistoryAction Action)) :
    canRedo config (xs.filter (fun x => !x.undone)) = false := by
  rw [Bool.eq_false_iff]
  intro h
  obtain ⟨x, hx, hu⟩ := List.any_eq_true.mp h
  have := (List.mem_filter.mp hx).2
  rw [hu] at this
  simp at this

/-- Claim C6: when the base reducer returns a value that the
structural-equality test reports equal to the current present, handle
leaves the whole history bookkeeping unchanged and only replaces
present with the reducer result, whatever the tracked and undoable
configuration is. -/
theorem C6_noop_never_appended (reducer : State → Action → State)
    (config : UndoableActionsConfig) (atype : Action → String)
    (deq : State → State → Bool) (s : HistoryState State Action)
    (action : Action)
    (h : deq (reducer s.present action) s.present = true) :
    handle reducer config atype deq s action =
      { s with present := reducer s.present action } :=
  handle_eq_untracked reducer config atype deq s action (by rw [h]; simp)

/-- Witness for C6 at a concrete input: the engine instantiated on
JavaScript values with the actual deepEqual of the source, a reducer
returning its input reference, and a concrete state. -/
theorem C6_witness :
    deepEqual stJS.present stJS.present = true ∧
    handle (fun s _ => s) cfgAll idType deepEqual stJS "inc" =
      { stJS with present := stJS.present } := by
  refine ⟨rfl, C6_noop_never_appended (fun s _ => s) cfgAll idType deepEqual stJS "inc" rfl⟩

/-- Claim C7: hydrate snapshots the pre-hydrate present, installs the
payload actions (defaulting to the empty list) and tracking flag
(defaulting to true), and recomputes present as the full replay of
the payload entries over the new snapshot; missing payload fields are
defaulted, not rejected. -/
theorem C7_hydrate_contract (reducer : State → Action → State)
    (config : UndoableActionsConfig) (atype : Action → String)
    (s : HistoryState State Action) (payload : HydratePayload Action)
    (initialState : HistoryState State Action) :
    (hydrate reducer config atype s payload initialState).history.snapshot
        = s.present ∧
    (hydrate reducer config atype s payload initialState).history.actions
        = payload.actions.getD [] ∧
    (hydrate reducer config atype s payload initialState).history.tracking
        = payload.tracking.getD true ∧
    (hydrate reducer config atype s payload initialState).present
        = replay reducer (payload.actions.getD []) s.present :=
  ⟨rfl, rfl, rfl, rfl⟩

/-- Claim C8: undo on a state whose history does not allow undoing,
and redo on a state whose history does not allow redoing, return the
input state itself. -/
theorem C8_boundary_noop [Inhabited Action] (reducer : State → Action → State)
    (config : UndoableActionsConfig) (atype : Action → String)
    (s : HistoryState State Action) :
    (canUndo config atype s.history.actions = false →
      undo reducer config atype s = s) ∧
    (canRedo config s.history.actions = false →
      redo reducer config atype s = s) :=
  ⟨undo_of_not_canUndo reducer config atype s,
   redo_of_not_canRedo reducer config atype s⟩

/-- Witness for C8 at the initial state, whose history is empty. -/
theorem C8_witness :
    undo cReducer cfgAll idType (getInitialState cfgAll (0 : Int)) =
      getInitialState cfgAll (0 : Int) ∧
    redo cReducer cfgAll idType (getInitialState cfgAll (0 : Int)) =
      getInitialState cfgAll (0 : Int) :=
  ⟨(C8_boundary_noop cReducer cfgAll idType _).1 (by decide),
   (C8_boundary_noop cReducer cfgAll idType _).2 (by decide)⟩

/-- Claim C3: a tracked, state-changing action of an undoable type
drops every currently-undone entry before being appended and leaves
canRedo false; a tracked, state-changing action of a non-undoable type
is appended without touching the previously undone entries or
canRedo. -/
theorem C3_redo_stack_clearing (reducer : State → Action → State)
    (config : UndoableActionsConfig) (atype : Action → String)
    (deq : State → State → Bool) (s : HistoryState State Action)
    (action : Action)
    (ht : s.history.tracking = true)
    (htr : isActionTracked config atype action = true)
    (hch : deq (reducer s.present action) s.present = false)
    (hwf : s.canRedo = canRedo config s.history.actions) :
    (isActionUndoable config atype action = true →
      (handle reducer config atype deq s action).history.actions =
        s.history.actions.filter (fun a => !a.undone) ++ [⟨action, false⟩] ∧
      (handle reducer config atype deq s action).canRedo = false) ∧
    (isActionUndoable config atype action = false →
      (handle reducer config atype deq s action).history.actions =
        s.history.actions ++ [⟨action, false⟩] ∧
      (handle reducer config atype deq s action).canRedo = s.canRedo) := by
  constructor
  · intro hua
    rw [handle_eq_tracked_undoable reducer config atype deq s action ht htr hch hua]
    refine ⟨rfl, ?_⟩
    show canRedo config (s.history.actions.filter (fun a => !a.undone)
      ++ [⟨action, false⟩]) = false
    rw [canRedo_append_live, canRedo_filter_live]
  · intro hua
    rw [handle_eq_tracked_not_undoable reducer config atype deq s action ht htr hch hua]
    refine ⟨rfl, ?_⟩
    show canRedo config (s.history.actions ++ [⟨action, false⟩]) = s.canRedo
    rw [canRedo_append_live, hwf]

/-- Witness for C3 at a concrete input: a state with one undone entry
of type A under the configuration where only B is undoable, handling
the tracked non-undoable state-changing action inc, and the same
conclusion for the undoable side being vacuously available. -/
theorem C3_witness :
    (isActionUndoable cfgUndoB idType "inc" = false →
      (handle cReducer cfgUndoB idType deqInt stUndoneA "inc").history.actions =
        stUndoneA.history.actions ++ [⟨"inc", false⟩] ∧
      (handle cReducer cfgUndoB idType deqInt stUndoneA "inc").canRedo =
        stUndoneA.canRedo) ∧
    isActionUndoable cfgUndoB idType "inc" = false ∧
    stUndoneA.canRedo = true :=
  ⟨(C3_redo_stack_clearing cReducer cfgUndoB idType deqInt stUndoneA "inc"
      (by decide) (by decide) (by decide) (by decide)).2,
   by decide, by decide⟩

/-- Claim C4: when undo applies, the entry it marks undone is the one
at the largest index that is both not yet undone and of an undoable
type; the entry is replaced in place by the same action with the
undone flag set, so the length and the order of the list are
unchanged. -/
theorem C4_undo_marks_last_undoable [Inhabited Action]
    (reducer : State → Action → State) (config : UndoableActionsConfig)
    (atype : Action → String) (s : HistoryState State Action)
    (h : canUndo config atype s.history.actions = true) :
    ∃ (n : Nat) (e : HistoryAction Action),
      s.history.actions[n]? = some e ∧ e.undone = false ∧
      isActionUndoable config atype e.action = true ∧
      (∀ k, n < k → ∀ e2, s.history.actions[k]? = some e2 →
        e2.undone = false → isActionUndoable config atype e2.action = false) ∧
      (undo reducer config atype s).history.actions =
        s.history.actions.set n ⟨e.action, true⟩ ∧
      (undo reducer config atype s).history.actions.length =
        s.history.actions.length := by
  obtain ⟨n, e, _, he, hu, hua, hafter, heq⟩ := undo_spec reducer config atype s h
  refine ⟨n, e, he, hu, hua, ?_, ?_, ?_⟩
  · intro k hk e2 he2 hu2
    have hb := hafter k hk e2 he2
    rw [hu2] at hb
    simpa using hb
  · rw [heq]
  · rw [heq]
    simp [List.length_set]

/-- Witness for C4 at a concrete input: a history of two recorded inc
entries under the all-undoable configuration. -/
theorem C4_witness :
    canUndo cfgAll idType stTwoInc.history.actions = true ∧
    ∃ (n : Nat) (e : HistoryAction String),
      stTwoInc.history.actions[n]? = some e ∧ e.undone = false ∧
      isActionUndoable cfgAll idType e.action = true ∧
      (∀ k, n < k → ∀ e2, stTwoInc.history.actions[k]? = some e2 →
        e2.undone = false → isActionUndoable cfgAll idType e2.action = false) ∧
      (undo cReducer cfgAll idType stTwoInc).history.actions =
        stTwoInc.history.actions.set n ⟨e.action, true⟩ ∧
      (undo cReducer cfgAll idType stTwoInc).history.actions.length =
        stTwoInc.history.actions.length :=
  ⟨by decide,
   C4_undo_marks_last_undoable cReducer cfgAll idType stTwoInc (by decide)⟩

end Claims1

section Claims2

variable {State Action : Type}

/-- Claim C9 (amended): when undo applies, and when redo applies to a
state in which some undone entry is of an undoable type, the
operations leave snapshot, tracking and the number and order of the
entries unchanged, replacing a single entry by the same action with
its undone flag toggled.  (When every undone entry is non-undoable,
redo instead overwrites the last entry with a junk entry, which the
counterexample exhibits.) -/
theorem C9_undo_redo_frame [Inhabited Action] (reducer : State → Action → State)
    (config : UndoableActionsConfig) (atype : Action → String)
    (s : HistoryState State Action) :
    (canUndo config atype s.history.actions = true →
      ∃ (n : Nat) (e : HistoryAction Action),
        s.history.actions[n]? = some e ∧
        (undo reducer config atype s).history.snapshot = s.history.snapshot ∧
        (undo reducer config atype s).history.tracking = s.history.tracking ∧
        (undo reducer config atype s).history.actions =
          s.history.actions.set n ⟨e.action, true⟩ ∧
        (undo reducer config atype s).history.actions.length =
          s.history.actions.length) ∧
    (canRedo config s.history.actions = true →
      (∃ e0 ∈ s.history.actions, e0.undone = true ∧
        isActionUndoable config atype e0.action = true) →
      ∃ (n : Nat) (e : HistoryAction Action),
        s.history.actions[n]? = some e ∧
        (redo reducer config atype s).history.snapshot = s.history.snapshot ∧
        (redo reducer config atype s).history.tracking = s.history.tracking ∧
        (redo reducer config atype s).history.actions =
          s.history.actions.set n ⟨e.action, false⟩ ∧
        (redo reducer config atype s).history.actions.length =
          s.history.actions.length) := by
  constructor
  · intro h
    obtain ⟨n, e, _, he, _, _, _, heq⟩ := undo_spec reducer config atype s h
    refine ⟨n, e, he, ?_, ?_, ?_, ?_⟩ <;> simp [heq, List.length_set]
  · intro hcr hex
    obtain ⟨e0, he0, hu0, hua0⟩ := hex
    have hne : findIndexJS
        (fun a => a.undone && isActionUndoable config atype a.action)
        s.history.actions ≠ -1 := by
      intro hcon
      have := (findIndexJS_eq_neg_one_iff _ _).mp hcon e0 he0
      rw [hu0, hua0] at this
      simp at this
    obtain ⟨n, hn, e, he, _, _⟩ := findIndexJS_found _ _ hne
    have heq := redo_eq_of_found reducer config atype s hcr hn he
    refine ⟨n, e, he, ?_, ?_, ?_, ?_⟩ <;> simp [heq, List.length_set]

/-- Counterexample for C9 as stated: under the configuration where
only B is undoable, redo applies to a state whose only (undone) entry
has the non-undoable type A, yet redo does not merely toggle a flag:
it overwrites that entry, losing its action. -/
theorem C9_counterexample :
    canRedo cfgUndoB stUndoneA.history.actions = true ∧
    (redo cReducer cfgUndoB idType stUndoneA).history.actions.map
        (fun e => e.action) ≠
      stUndoneA.history.actions.map (fun e => e.action) := by
  decide

/-- Witness for C9 at a concrete input: a coherent two-entry history
whose first entry is live and whose second entry is undone, under the
all-undoable configuration. -/
theorem C9_witness :
    (∃ (n : Nat) (e : HistoryAction String),
      stC5.history.actions[n]? = some e ∧
      (undo cReducer cfgAll idType stC5).history.snapshot =
        stC5.history.snapshot ∧
      (undo cReducer cfgAll idType stC5).history.tracking =
        stC5.history.tracking ∧
      (undo cReducer cfgAll idType stC5).history.actions =
        stC5.history.actions.set n ⟨e.action, true⟩ ∧
      (undo cReducer cfgAll idType stC5).history.actions.length =
        stC5.history.actions.length) ∧
    (∃ (n : Nat) (e : HistoryAction String),
      stC5.history.actions[n]? = some e ∧
      (redo cReducer cfgAll idType stC5).history.snapshot =
        stC5.history.snapshot ∧
      (redo cReducer cfgAll idType stC5).history.tracking =
        stC5.history.tracking ∧
      (redo cReducer cfgAll idType stC5).history.actions =
        stC5.history.actions.set n ⟨e.action, false⟩ ∧
      (redo cReducer cfgAll idType stC5).history.actions.length =
        stC5.history.actions.length) :=
  ⟨(C9_undo_redo_frame cReducer cfgAll idType stC5).1 (by decide),
   (C9_undo_redo_frame cReducer cfgAll idType stC5).2 (by decide)
     ⟨⟨"inc", true⟩, by decide, rfl, by decide⟩⟩

/-- Claim C10 (amended): deepEqual is reflexive on every JavaScript
value other than the number NaN; on NaN itself the strict-equality
fast path fails and NaN is not an object, so deepEqual returns
false. -/
theorem C10_deepEqual_reflexive (a : JSVal) (h : a ≠ JSVal.vnan) :
    deepEqual a a = true := by
  cases a with
  | vnan => exact absurd rfl h
  | vundef => rfl
  | vnull => rfl
  | vbool b => simp [deepEqual, jsStrictEq]
  | vnum n => simp [deepEqual, jsStrictEq]
  | vstr s => simp [deepEqual, jsStrictEq]
  | vobj r f => simp [deepEqual, jsStrictEq]

/-- Counterexample for C10 as stated: deepEqual is not reflexive at
NaN. -/
theorem C10_counterexample : deepEqual JSVal.vnan JSVal.vnan = false := rfl

/-- Witness for C10 at a concrete non-NaN value. -/
theorem C10_witness : deepEqual (JSVal.vnum 3) (JSVal.vnum 3) = true :=
  C10_deepEqual_reflexive (JSVal.vnum 3) (fun h => JSVal.noConfusion h)

end Claims2

section CoherenceLemmas

variable {State Action : Type}

lemma handle_coherent_tracked (reducer : State → Action → State)
    (config : UndoableActionsConfig) (atype : Action → String)
    (deq : State → State → Bool) (s : HistoryState State Action)
    (action : Action) (hs : Coherent reducer s)
    (ht : s.history.tracking = true)
    (htr : isActionTracked config atype action = true)
    (hne : deq (reducer s.present action) s.present = false) :
    Coherent reducer (handle reducer config atype deq s action) := by
  by_cases hua : isActionUndoable config atype action = true
  · rw [handle_eq_tracked_undoable reducer config atype deq s action ht htr hne hua]
    show reducer s.present action =
      replay reducer (s.history.actions.filter (fun a => !a.undone)
        ++ [⟨action, false⟩]) s.history.snapshot
    rw [replay_append, replay_single, replay_filter_not_undone]
    rw [← hs]
    rfl
  · rw [handle_eq_tracked_not_undoable reducer config atype deq s action ht htr hne
      (Bool.eq_false_iff.mpr hua)]
    show reducer s.present action =
      replay reducer (s.history.actions ++ [⟨action, false⟩]) s.history.snapshot
    rw [replay_append, replay_single]
    rw [← hs]
    rfl

lemma undo_coherent [Inhabited Action] (reducer : State → Action → State)
    (config : UndoableActionsConfig) (atype : Action → String)
    (s : HistoryState State Action) (hs : Coherent reducer s) :
    Coherent reducer (undo reducer config atype s) := by
  by_cases h : canUndo config atype s.history.actions = true
  · obtain ⟨n, e, _, _, _, _, _, heq⟩ := undo_spec reducer config atype s h
    rw [heq]
    show replay reducer (s.history.actions.set n ⟨e.action, true⟩)
        s.history.snapshot = _
    rfl
  · rw [undo_of_not_canUndo reducer config atype s (Bool.eq_false_iff.mpr h)]
    exact hs

lemma redo_single_step_eq [Inhabited Action] (reducer : State → Action → State)
    (config : UndoableActionsConfig) (atype : Action → String)
    (s : HistoryState State Action) (hs : Coherent reducer s)
    {n : Nat} {e : HistoryAction Action}
    (hfij : findIndexJS (fun a => a.undone && isActionUndoable config atype a.action)
      s.history.actions = (n : Int))
    (hn : s.history.actions[n]? = some e)
    (hlast : n + 1 = s.history.actions.length) :
    reducer s.present e.action =
      replay reducer (s.history.actions.set n ⟨e.action, false⟩)
        s.history.snapshot := by
  have hne : findIndexJS
      (fun a => a.undone && isActionUndoable config atype a.action)
      s.history.actions ≠ -1 := by
    rw [hfij]
    omega
  obtain ⟨m, hm, e2, he2, hq2, _⟩ := findIndexJS_found _ _ hne
  have hmn : m = n := by
    rw [hfij] at hm
    omega
  rw [hmn, hn] at he2
  injection he2 with he2
  subst he2
  have hu : e.undone = true := ((Bool.and_eq_true _ _).mp hq2).1
  have hlt : n < s.history.actions.length := (List.getElem?_eq_some_iff.mp hn).1
  have hdropnil : s.history.actions.drop (n + 1) = [] :=
    List.drop_eq_nil_of_le (by omega)
  have hdecomp : s.history.actions = s.history.actions.take n ++ [e] := by
    conv_lhs => rw [eq_take_cons_drop hn]
    rw [hdropnil]
  have hset : s.history.actions.set n ⟨e.action, false⟩ =
      s.history.actions.take n ++ [⟨e.action, false⟩] := by
    rw [set_eq_take_cons_drop _ hlt, hdropnil]
  rw [hset, replay_append, replay_single]
  have hpres : s.present =
      replay reducer (s.history.actions.take n) s.history.snapshot := by
    rw [hs]
    conv_lhs => rw [hdecomp]
    rw [replay_append, replay_single, if_pos hu]
  rw [hpres]
  rfl

lemma redo_coherent [Inhabited Action] (reducer : State → Action → State)
    (config : UndoableActionsConfig) (atype : Action → String)
    (s : HistoryState State Action) (hs : Coherent reducer s) :
    Coherent reducer (redo reducer config atype s) := by
  by_cases hcr : canRedo config s.history.actions = true
  · by_cases hfound : findIndexJS
        (fun a => a.undone && isActionUndoable config atype a.action)
        s.history.actions = -1
    · rw [redo_eq_of_not_found reducer config atype s hcr hfound]
      show replay reducer _ s.history.snapshot = _
      rfl
    · obtain ⟨n, hn, e, he, _, _⟩ := findIndexJS_found _ _ hfound
      rw [redo_eq_of_found reducer config atype s hcr hn he]
      by_cases hc : n + 1 = s.history.actions.length
      · rw [if_pos hc]
        show reducer s.present e.action =
          replay reducer (s.history.actions.set n ⟨e.action, false⟩)
            s.history.snapshot
        exact redo_single_step_eq reducer config atype s hs hn he hc
      · rw [if_neg hc]
        show replay reducer (s.history.actions.set n ⟨e.action, false⟩)
            s.history.snapshot = _
        rfl
  · rw [redo_of_not_canRedo reducer config atype s (Bool.eq_false_iff.mpr hcr)]
    exact hs

lemma noUndone_suffix_cond (config : UndoableActionsConfig)
    (atype : Action → String) (actions : List (HistoryAction Action))
    (hnone : ∀ x ∈ actions, x.undone = false) :
    ∀ (k : Nat) (e : HistoryAction Action), actions[k]? = some e →
      e.undone = true → isActionUndoable config atype e.action = true →
      findLastIndexJS (fun a => !a.undone && isActionUndoable config atype a.action)
        actions < (k : Int) := by
  intro k e hk hu _
  have := hnone e (mem_of_getElem_some hk)
  rw [hu] at this
  simp at this

end CoherenceLemmas

section Claims3

variable {State Action : Type}

/-- Claim C1 (amended): the replay invariant - present equals the
left-fold of the base reducer over snapshot along the non-undone
entries in stored order - is preserved by undo, redo, reset, hydrate,
trackAfter and setTracking, and by handle provided the action gets
recorded (tracking on, type tracked, reducer result not reported
equal) or the reducer call leaves the present value unchanged.  The
counterexample shows that handle on an untracked state-changing
action breaks the invariant, so the unrestricted claim fails. -/
theorem C1_replay_invariant [Inhabited Action] (reducer : State → Action → State)
    (config : UndoableActionsConfig) (atype : Action → String)
    (deq : State → State → Bool) (s : HistoryState State Action)
    (p0 : State) (payload : HydratePayload Action) (a : Action) (b : Bool)
    (hs : Coherent reducer s) :
    Coherent reducer (undo reducer config atype s) ∧
    Coherent reducer (redo reducer config atype s) ∧
    Coherent reducer (reset config s (getInitialState config p0)) ∧
    Coherent reducer
      (hydrate reducer config atype s payload (getInitialState config p0)) ∧
    Coherent reducer
      (trackAfter reducer config atype deq s a (getInitialState config p0)) ∧
    Coherent reducer (setTracking s b) ∧
    (((s.history.tracking = true ∧ isActionTracked config atype a = true ∧
        deq (reducer s.present a) s.present = false) ∨
      reducer s.present a = s.present) →
      Coherent reducer (handle reducer config atype deq s a)) := by
  refine ⟨undo_coherent reducer config atype s hs,
          redo_coherent reducer config atype s hs, ?_, rfl, rfl, hs, ?_⟩
  · unfold reset
    by_cases hna : config.trackAfterAction.isNone = true
    · rw [if_pos hna]
      rfl
    · rw [if_neg hna]
      rfl
  · intro h
    rcases h with ⟨ht, htr, hne⟩ | hfix
    · exact handle_coherent_tracked reducer config atype deq s a hs ht htr hne
    · by_cases hguard : (!s.history.tracking || !isActionTracked config atype a
          || deq (reducer s.present a) s.present) = true
      · rw [handle_eq_untracked reducer config atype deq s a hguard]
        show reducer s.present a = replay reducer s.history.actions
          s.history.snapshot
        rw [hfix]
        exact hs
      · have hg : (!s.history.tracking || !isActionTracked config atype a
            || deq (reducer s.present a) s.present) = false :=
          Bool.eq_false_iff.mpr hguard
        simp only [Bool.or_eq_false_iff, Bool.not_eq_false'] at hg
        exact handle_coherent_tracked reducer config atype deq s a hs
          hg.1.1 hg.1.2 hg.2

/-- Counterexample for C1 as stated: under the configuration that
tracks only inc, handling the state-changing untracked action dec
leaves a state whose present no longer equals the replay of its
history. -/
theorem C1_counterexample :
    Coherent cReducer (getInitialState cfgTrackedInc (0 : Int) :
      HistoryState Int String) ∧
    ¬ Coherent cReducer (handle cReducer cfgTrackedInc idType deqInt
        (getInitialState cfgTrackedInc (0 : Int)) "dec") := by
  constructor
  · rfl
  · unfold Coherent
    decide

/-- Witness for C1 at a concrete coherent state. -/
theorem C1_witness :
    Coherent cReducer (undo cReducer cfgAll idType stTwoInc) ∧
    Coherent cReducer (handle cReducer cfgAll idType deqInt stTwoInc "inc") :=
  ⟨(C1_replay_invariant cReducer cfgAll idType deqInt stTwoInc 0
      ⟨none, none⟩ "inc" false rfl).1,
   (C1_replay_invariant cReducer cfgAll idType deqInt stTwoInc 0
      ⟨none, none⟩ "inc" false rfl).2.2.2.2.2.2
     (Or.inl ⟨by decide, by decide, by decide⟩)⟩

/-- Claim C2 (amended): undo followed immediately by redo restores the
action list (hence every undone flag) and the present value exactly,
provided undo applies (canUndo), the state satisfies the replay
invariant, and no undone undoable entry precedes the entry undo will
mark - conditions met by every history built without hydration of
exotic payloads and without untracked state changes.  The
counterexample shows the unrestricted claim fails. -/
theorem C2_undo_redo_inverse [Inhabited Action] (reducer : State → Action → State)
    (config : UndoableActionsConfig) (atype : Action → String)
    (s : HistoryState State Action)
    (hs : Coherent reducer s)
    (hcu : canUndo config atype s.history.actions = true)
    (hsuffix : ∀ (k : Nat) (e : HistoryAction Action),
      s.history.actions[k]? = some e → e.undone = true →
      isActionUndoable config atype e.action = true →
      findLastIndexJS
        (fun x => !x.undone && isActionUndoable config atype x.action)
        s.history.actions < (k : Int)) :
    (redo reducer config atype (undo reducer config atype s)).history.actions
      = s.history.actions ∧
    (redo reducer config atype (undo reducer config atype s)).present
      = s.present := by
  obtain ⟨n, e, hflij, hn, hu, hua, hafter, hundoeq⟩ :=
    undo_spec reducer config atype s hcu
  obtain ⟨ea, eu⟩ := e
  have hu2 : eu = false := hu
  subst hu2
  have hlt : n < s.history.actions.length := (List.getElem?_eq_some_iff.mp hn).1
  have hAlen : (s.history.actions.set n ⟨ea, true⟩).length =
      s.history.actions.length := List.length_set _ _ _
  have hA_n : (s.history.actions.set n ⟨ea, true⟩)[n]? =
      some (⟨ea, true⟩ : HistoryAction Action) := List.getElem?_set_self hlt
  have hcrA : canRedo config (s.history.actions.set n ⟨ea, true⟩) = true :=
    canRedo_of_undone (mem_of_getElem_some hA_n) rfl
  have hfijA : findIndexJS
      (fun x => x.undone && isActionUndoable config atype x.action)
      (s.history.actions.set n ⟨ea, true⟩) = (n : Int) := by
    refine findIndexJS_eq_of_first _ _ n ⟨ea, true⟩ hA_n (by simpa using hua) ?_
    intro k hk e2 he2
    rw [List.getElem?_set_ne (by omega)] at he2
    rw [Bool.eq_false_iff]
    intro hq
    obtain ⟨hu2, hua2⟩ := (Bool.and_eq_true _ _).mp hq
    have := hsuffix k e2 he2 hu2 hua2
    rw [hflij] at this
    omega
  rw [hundoeq]
  rw [redo_eq_of_found reducer config atype _ hcrA hfijA hA_n]
  constructor
  · show (s.history.actions.set n ⟨ea, true⟩).set n ⟨ea, false⟩ =
      s.history.actions
    rw [List.set_set]
    exact set_getElem_self hn
  · show (if n + 1 = (s.history.actions.set n ⟨ea, true⟩).length
        then reducer
          (replay reducer (s.history.actions.set n ⟨ea, true⟩)
            s.history.snapshot) ea
        else replay reducer
          ((s.history.actions.set n ⟨ea, true⟩).set n ⟨ea, false⟩)
          s.history.snapshot) = s.present
    rw [hAlen]
    by_cases hc : n + 1 = s.history.actions.length
    · rw [if_pos hc]
      have hdropnil : s.history.actions.drop (n + 1) = [] :=
        List.drop_eq_nil_of_le (by omega)
      have hdecA : s.history.actions.set n ⟨ea, true⟩ =
          s.history.actions.take n ++ [⟨ea, true⟩] := by
        rw [set_eq_take_cons_drop _ hlt, hdropnil]
      have hdec : s.history.actions =
          s.history.actions.take n ++ [⟨ea, false⟩] := by
        conv_lhs => rw [eq_take_cons_drop hn]
        rw [hdropnil]
      rw [hdecA, replay_append, replay_single, if_pos rfl]
      rw [hs]
      conv_rhs => rw [hdec]
      rw [replay_append, replay_single, if_neg (by simp)]
    · rw [if_neg hc, List.set_set, set_getElem_self hn]
      exact hs.symm

/-- Counterexample for C2 as stated: on a coherent state whose only
entry is already undone, undo is a no-op while redo still fires, so
undo-then-redo restores neither the present value nor the undone
flags. -/
theorem C2_counterexample :
    ¬ ((redo cReducer cfgAll idType
          (undo cReducer cfgAll idType stExhausted)).present
         = stExhausted.present ∧
       (redo cReducer cfgAll idType
          (undo cReducer cfgAll idType stExhausted)).history.actions.map
            (fun x => x.undone)
         = stExhausted.history.actions.map (fun x => x.undone)) := by
  decide

/-- Witness for C2 at a concrete coherent two-entry history with no
undone entries. -/
theorem C2_witness :
    (redo cReducer cfgAll idType
      (undo cReducer cfgAll idType stTwoInc)).history.actions
      = stTwoInc.history.actions ∧
    (redo cReducer cfgAll idType
      (undo cReducer cfgAll idType stTwoInc)).present
      = stTwoInc.present :=
  C2_undo_redo_inverse cReducer cfgAll idType stTwoInc rfl (by decide)
    (noUndone_suffix_cond cfgAll idType stTwoInc.history.actions (by decide))

/-- Claim C5 (amended): on a state satisfying the replay invariant on
which redo applies, the single-step shortcut taken when the entry
being redone is the last element agrees with the full replay over the
updated list, and the present value redo produces always equals the
replay of its own history.  The counterexample shows the equivalence
fails on redo-applicable states that violate the replay invariant. -/
theorem C5_redo_single_step [Inhabited Action] (reducer : State → Action → State)
    (config : UndoableActionsConfig) (atype : Action → String)
    (s : HistoryState State Action)
    (hs : Coherent reducer s)
    (_hcr : canRedo config s.history.actions = true) :
    (∀ (n : Nat) (e : HistoryAction Action),
      findIndexJS (fun x => x.undone && isActionUndoable config atype x.action)
        s.history.actions = (n : Int) →
      s.history.actions[n]? = some e →
      n + 1 = s.history.actions.length →
      reducer s.present e.action =
        replay reducer (s.history.actions.set n ⟨e.action, false⟩)
          s.history.snapshot) ∧
    (redo reducer config atype s).present =
      replay reducer (redo reducer config atype s).history.actions
        (redo reducer config atype s).history.snapshot :=
  ⟨fun _ _ hfij hn hlast =>
      redo_single_step_eq reducer config atype s hs hfij hn hlast,
   redo_coherent reducer config atype s hs⟩

/-- Counterexample for C5 as stated: a redo-applicable state whose
present diverged from its history replay; the single-step path then
disagrees with the full replay. -/
theorem C5_counterexample :
    canRedo cfgAll stIncoherent.history.actions = true ∧
    (redo cReducer cfgAll idType stIncoherent).present ≠
      replay cReducer
        (redo cReducer cfgAll idType stIncoherent).history.actions
        (redo cReducer cfgAll idType stIncoherent).history.snapshot := by
  decide

/-- Witness for C5 at a concrete coherent state whose undone entry is
the last element. -/
theorem C5_witness :
    cReducer stC5.present "inc" =
      replay cReducer (stC5.history.actions.set 1 ⟨"inc", false⟩)
        stC5.history.snapshot ∧
    (redo cReducer cfgAll idType stC5).present =
      replay cReducer (redo cReducer cfgAll idType stC5).history.actions
        (redo cReducer cfgAll idType stC5).history.snapshot :=
  ⟨(C5_redo_single_step cReducer cfgAll idType stC5 rfl (by decide)).1
      1 ⟨"inc", true⟩ (by decide) (by decide) (by decide),
   (C5_redo_single_step cReducer cfgAll idType stC5 rfl (by decide)).2⟩

end Claims3

end ReduxUndoActions
